import Mathlib

/-!
Verification of the data-transformation core of the AI IVR dashboard
(`streamlit_app.py`): the dataset loader (date parsing and column rename),
the category registry, the column aggregator, and the wide-to-long reshape
pipeline with its chart-padding records.

The pandas frame is embedded at two levels of detail:

* `Frame` — a columnar frame whose series carry a pandas dtype and
  heterogeneous cell values; used for `load_data` (date conversion, rename)
  and for `Series.sum` with null cells.
* `Table` — the loaded numeric table consumed by the melt/reshape logic:
  one `Row` per date, each row holding an association list of numeric
  columns (an absent entry plays the role of a null cell).
-/

/-- pandas column dtypes that can occur for the columns in play. -/
inductive Dtype where
  | object
  | datetime64
  | int64
  | float64
deriving DecidableEq

/-- A single cell value of a raw pandas frame. -/
inductive Value where
  | vstr (s : String)
  | vdate (d : Int)
  | vnum (q : ℚ)
  | vnull
deriving DecidableEq

/-- A pandas Series: a dtype plus the column's cells. -/
structure Series where
  dtype : Dtype
  vals : List Value
deriving DecidableEq

/-- A raw pandas DataFrame, as an ordered list of named columns. -/
structure Frame where
  cols : List (String × Series)
deriving DecidableEq

/-- `df[c]`: the first column named `c`, if any. -/
def Frame.getCol (f : Frame) (c : String) : Option Series :=
  (f.cols.find? (fun p => p.1 = c)).map Prod.snd

/-- `df[c] = s`: replace the cells of every column named `c`. -/
def Frame.setCol (f : Frame) (c : String) (s : Series) : Frame :=
  ⟨f.cols.map (fun p => if p.1 = c then (p.1, s) else p)⟩

/-- The column labels of a frame, in order. -/
def Frame.colNames (f : Frame) : List String :=
  f.cols.map Prod.fst

/-- The `rename_map` dictionary of `load_data` (source lines 26-33). -/
def rename_map : List (String × String) :=
  [("sb_sessions", "sb_hardware_sessions"),
   ("sb_messages", "sb_hardware_messages"),
   ("edc_sessions", "edc_hardware_sessions"),
   ("edc_messages", "edc_hardware_messages"),
   ("payment_acceptence_sessions", "payment_acceptance_sessions"),
   ("payment_acceptence_messages", "payment_acceptance_messages")]

/-- `df.rename(columns=rename_map)` on a single label: exact, case-sensitive
match against the keys of `rename_map`, all other labels pass through. -/
def renameCol (c : String) : String :=
  match rename_map.find? (fun p => p.1 = c) with
  | some e => e.2
  | none => c

/-- `df.rename(columns=rename_map, inplace=True)` (source line 34). -/
def renameFrame (f : Frame) : Frame :=
  ⟨f.cols.map (fun p => (renameCol p.1, p.2))⟩

/-- `pd.to_datetime` on one cell of an object column: strings are parsed by
the ambient parser, anything else becomes NaT. -/
def toDatetimeVal (parse : String → Int) : Value → Value
  | Value.vstr s => Value.vdate (parse s)
  | _ => Value.vnull

/-- `pd.to_datetime(df[c])`: parse every cell, dtype becomes datetime64. -/
def toDatetimeSeries (parse : String → Int) (s : Series) : Series :=
  ⟨Dtype.datetime64, s.vals.map (toDatetimeVal parse)⟩

/-- `load_data` (source lines 12-36), applied to the frame produced by
`pd.read_csv`: convert `date_` to datetime when its dtype is `object`,
then rename the legacy columns.  `none` models the KeyError raised when
the `date_` column is absent. -/
def load_data (parse : String → Int) (df : Frame) : Option Frame :=
  (df.getCol "date_").map (fun s =>
    let df2 := if s.dtype = Dtype.object
      then df.setCol "date_" (toDatetimeSeries parse s)
      else df
    renameFrame df2)

/-- `Series.sum()` with pandas' default `skipna=True`: numeric cells are
added, null (NaN) cells contribute nothing, an empty series sums to 0. -/
def seriesSum : List Value → ℚ
  | [] => 0
  | Value.vnum q :: rest => q + seriesSum rest
  | _ :: rest => seriesSum rest

/-- `df[c].sum()` (source lines 68, 72, 104, 108). -/
def colSum (f : Frame) (c : String) : Option ℚ :=
  (f.getCol c).map (fun s => seriesSum s.vals)

/-- `category_mapping` (source lines 41-54): display label to column-name
stem, in declaration order. -/
def category_mapping : List (String × String) :=
  [("Soundbox Hardware", "sb_hardware"),
   ("Device Return", "device_return"),
   ("Business Loan", "business_loan"),
   ("Customer Care", "customer_care"),
   ("Profile", "profile"),
   ("EDC Hardware", "edc_hardware"),
   ("Payment Acceptence", "payment_acceptance"),
   ("Refund", "refund"),
   ("Rental Charges", "rental_charges"),
   ("Generic Query", "generic_query"),
   ("Settlement & Deductions", "settlement_deductions"),
   ("Others", "other")]

/-- One row of the loaded table: the `date_` value (as a day ordinal) plus
the numeric columns present in that row. -/
structure Row where
  date_ : Int
  cells : List (String × ℚ)
deriving DecidableEq

/-- Cell lookup in a row; `none` models a missing (null) cell. -/
def Row.get (r : Row) (c : String) : Option ℚ :=
  (r.cells.find? (fun p => p.1 = c)).map Prod.snd

/-- The loaded table, rows in the stored (date-ascending) order. -/
structure Table where
  rows : List Row
deriving DecidableEq

/-- One melted record: `date_`, the `Intent` column, and the metric value
(the `Sessions` / `Messages` column of the melted frame). -/
structure LongRecord where
  date_ : Int
  intent : String
  value : ℚ
deriving DecidableEq

/-- `f"{category_mapping[cat]}_{kind}"` — the derived wide-column name for a
registry pair `c` and a metric kind (source lines 115-116). -/
def colName (c : String × String) (kind : String) : String :=
  c.2 ++ "_" ++ kind

/-- `selected_intent_sessions` / `..._messages` (source lines 115-116). -/
def intentCols (sel : List (String × String)) (kind : String) : List String :=
  sel.map (fun c => colName c kind)

/-- One `value_vars` block of `pd.melt`: the whole column `v`, one record per
row, in row order.  `none` models the KeyError on a missing cell. -/
def meltCol (v : String) : List Row → Option (List LongRecord)
  | [] => some []
  | r :: rs =>
    (r.get v).bind (fun q =>
      (meltCol v rs).map (fun rest => ⟨r.date_, v, q⟩ :: rest))

/-- `df.melt(id_vars=['date_'], value_vars=vs, ...)` (source lines 121-126):
pandas stacks the blocks of the `value_vars` in the order supplied, each
block containing every row in table order. -/
def melt (t : Table) : List String → Option (List LongRecord)
  | [] => some []
  | v :: vs =>
    (meltCol v t.rows).bind (fun b =>
      (melt t vs).map (fun rest => b ++ rest))

/-- `x.startswith(v)` on Python strings. -/
def strStartsWith (x v : String) : Bool :=
  v.data.isPrefixOf x.data

/-- `[k for k,v in category_mapping.items() if x.startswith(v)][0]`
(source lines 128-130): the first registry label whose column stem starts
the string `x`; `none` models the IndexError when no entry matches. -/
def firstMatch (x : String) : Option String :=
  (category_mapping.find? (fun p => strStartsWith x p.2)).map Prod.fst

/-- Reverse lookup of a registry entry by its exact column stem. -/
def reverseLookup (stem : String) : Option String :=
  (category_mapping.find? (fun p => p.2 = stem)).map Prod.fst

/-- The `Intent` rewrite `melted['Intent'].apply(...)` (source lines
128-130): replace each record's intent (a wide-column name) by the first
matching registry label. -/
def rewriteIntents : List LongRecord → Option (List LongRecord)
  | [] => some []
  | r :: rs =>
    (firstMatch r.intent).bind (fun lbl =>
      (rewriteIntents rs).map (fun rest => { r with intent := lbl } :: rest))

/-- `Series.min()`: `none` on an empty series. -/
def seriesMin {α : Type} [LinearOrder α] : List α → Option α
  | [] => none
  | x :: xs =>
    some (match seriesMin xs with
          | none => x
          | some m => min x m)

/-- `Series.max()`: `none` on an empty series. -/
def seriesMax {α : Type} [LinearOrder α] : List α → Option α
  | [] => none
  | x :: xs =>
    some (match seriesMax xs with
          | none => x
          | some m => max x m)

/-- `melted['date_'].min()` with the nonempty head available. -/
def padMinDate (l : List LongRecord) : Int :=
  (seriesMin (l.map LongRecord.date_)).getD 0

/-- The chart-padding block (source lines 132-142): when the melted frame is
nonempty, append a zero-baseline record and then a top-buffer record whose
value is `max_val * 1.05`, where `max_val` is taken over the frame *after*
the zero row was appended.  Both synthetic records reuse the minimum date
and the intent of the first melted record (`.iloc[0]`). -/
def padChart : List LongRecord → List LongRecord
  | [] => []
  | r0 :: rs =>
    let melted := r0 :: rs
    let withZero := melted ++ [⟨padMinDate melted, r0.intent, 0⟩]
    let maxVal := (seriesMax (withZero.map LongRecord.value)).getD 0
    withZero ++ [⟨padMinDate melted, r0.intent, maxVal * (21 / 20)⟩]

/-- The melted records before padding: melt then intent rewrite. -/
def realRecords (t : Table) (sel : List (String × String)) (kind : String) :
    Option (List LongRecord) :=
  (melt t (intentCols sel kind)).bind rewriteIntents

/-- The full reshape of the dashboard (source lines 120-142 for sessions,
160-182 for messages): nothing is produced when no category is selected,
otherwise melt, rewrite the intents, and pad. -/
def reshape (t : Table) (sel : List (String × String)) (kind : String) :
    Option (List LongRecord) :=
  if sel = [] then some []
  else (realRecords t sel kind).map padChart

/-!  Helper definitions and lemmas about the pipeline. -/

/-- Explicit form of `melt t vs` when every needed cell is present: one block
per column of `vs`, each block covering every row in table order. -/
def meltPure (t : Table) : List String → List LongRecord
  | [] => []
  | v :: vs =>
    (t.rows.map (fun r => ⟨r.date_, v, (r.get v).getD 0⟩)) ++ meltPure t vs

/-- Explicit form of the real (pre-padding) records after the intent
rewrite: one block per selected category, labels restored. -/
def longBlocks (t : Table) (kind : String) :
    List (String × String) → List LongRecord
  | [] => []
  | c :: cs =>
    (t.rows.map (fun r => ⟨r.date_, c.1, (r.get (colName c kind)).getD 0⟩)) ++
      longBlocks t kind cs

theorem seriesMax_nil {α : Type} [LinearOrder α] : seriesMax ([] : List α) = none := rfl

theorem seriesMax_eq_none {α : Type} [LinearOrder α] {l : List α}
    (h : seriesMax l = none) : l = [] := by
  cases l with
  | nil => rfl
  | cons x xs => simp [seriesMax] at h

theorem le_of_seriesMax {α : Type} [LinearOrder α] {l : List α} {m x : α}
    (hm : seriesMax l = some m) (hx : x ∈ l) : x ≤ m := by
  induction l generalizing m with
  | nil => cases hx
  | cons a as ih =>
    cases has : seriesMax as with
    | none =>
      have hnil : as = [] := seriesMax_eq_none has
      subst hnil
      have hma : a = m := by simpa [seriesMax] using hm
      have hxa : x = a := by simpa using hx
      exact hxa ▸ hma.le
    | some m2 =>
      have hmm : max a m2 = m := by simpa [seriesMax, has] using hm
      rcases List.mem_cons.mp hx with rfl | hx2
      · exact hmm ▸ le_max_left x m2
      · exact (ih has hx2).trans (hmm ▸ le_max_right a m2)

theorem seriesMax_concat {α : Type} [LinearOrder α] {l : List α} {m : α} (y : α)
    (hm : seriesMax l = some m) : seriesMax (l ++ [y]) = some (max m y) := by
  induction l generalizing m with
  | nil => simp [seriesMax] at hm
  | cons a as ih =>
    cases has : seriesMax as with
    | none =>
      have hnil : as = [] := seriesMax_eq_none has
      subst hnil
      have hma : a = m := by simpa [seriesMax] using hm
      subst hma
      simp [seriesMax]
    | some m2 =>
      have hmm : max a m2 = m := by simpa [seriesMax, has] using hm
      subst hmm
      rw [List.cons_append]
      simp only [seriesMax]
      rw [ih has]
      simp [max_assoc]

theorem meltCol_eq_of_isSome {v : String} {rows : List Row}
    (h : ∀ r ∈ rows, (Row.get r v).isSome) :
    meltCol v rows = some (rows.map (fun r => ⟨r.date_, v, (r.get v).getD 0⟩)) := by
  induction rows with
  | nil => rfl
  | cons r rs ih =>
    obtain ⟨q, hq⟩ := Option.isSome_iff_exists.mp (h r (by simp))
    have ih2 := ih (fun r2 hr2 => h r2 (by simp [hr2]))
    simp [meltCol, hq, ih2]

theorem melt_eq_of_isSome {t : Table} {vs : List String}
    (h : ∀ v ∈ vs, ∀ r ∈ t.rows, (Row.get r v).isSome) :
    melt t vs = some (meltPure t vs) := by
  induction vs with
  | nil => rfl
  | cons v vs2 ih =>
    have h1 : meltCol v t.rows = some (t.rows.map (fun r => ⟨r.date_, v, (r.get v).getD 0⟩)) :=
      meltCol_eq_of_isSome (h v (by simp))
    have ih2 := ih (fun v2 hv2 => h v2 (by simp [hv2]))
    simp [melt, h1, ih2, meltPure]

theorem rewriteIntents_append (a b : List LongRecord) :
    rewriteIntents (a ++ b) =
      (rewriteIntents a).bind (fun xs => (rewriteIntents b).map (fun ys => xs ++ ys)) := by
  induction a with
  | nil =>
    cases hb : rewriteIntents b <;> simp [rewriteIntents, hb]
  | cons r rs ih =>
    rw [List.cons_append]
    simp only [rewriteIntents]
    rw [ih]
    cases hf : firstMatch r.intent with
    | none => simp
    | some lbl =>
      cases hrs : rewriteIntents rs with
      | none => simp
      | some xs =>
        cases hb : rewriteIntents b <;> simp

theorem rewriteIntents_block (rows : List Row) (v lbl : String)
    (g : Row → Int) (gv : Row → ℚ) (hv : firstMatch v = some lbl) :
    rewriteIntents (rows.map (fun r => ⟨g r, v, gv r⟩)) =
      some (rows.map (fun r => ⟨g r, lbl, gv r⟩)) := by
  induction rows with
  | nil => rfl
  | cons r rs ih =>
    simp [rewriteIntents, hv, ih]

theorem firstMatch_registry :
    ∀ c ∈ category_mapping,
      firstMatch (colName c "sessions") = some c.1 ∧
      firstMatch (colName c "messages") = some c.1 := by decide

theorem rewriteIntents_meltPure (t : Table) (kind : String)
    (sel : List (String × String))
    (hmem : ∀ c ∈ sel, c ∈ category_mapping)
    (hkind : kind = "sessions" ∨ kind = "messages") :
    rewriteIntents (meltPure t (intentCols sel kind)) = some (longBlocks t kind sel) := by
  induction sel with
  | nil => rfl
  | cons c cs ih =>
    have hc : firstMatch (colName c kind) = some c.1 := by
      have hmem0 := hmem c (by simp)
      rcases hkind with h | h <;> rw [h]
      · exact (firstMatch_registry c hmem0).1
      · exact (firstMatch_registry c hmem0).2
    have ih2 := ih (fun c2 hc2 => hmem c2 (by simp [hc2]))
    show rewriteIntents
        ((t.rows.map (fun r => ⟨r.date_, colName c kind, (r.get (colName c kind)).getD 0⟩)) ++
          meltPure t (intentCols cs kind)) = _
    rw [rewriteIntents_append,
      rewriteIntents_block t.rows (colName c kind) c.1 Row.date_
        (fun r => (r.get (colName c kind)).getD 0) hc, ih2]
    rfl

theorem realRecords_eq (t : Table) (sel : List (String × String)) (kind : String)
    (hmem : ∀ c ∈ sel, c ∈ category_mapping)
    (hkind : kind = "sessions" ∨ kind = "messages")
    (hcols : ∀ c ∈ sel, ∀ r ∈ t.rows, (Row.get r (colName c kind)).isSome) :
    realRecords t sel kind = some (longBlocks t kind sel) := by
  have hvs : ∀ v ∈ intentCols sel kind, ∀ r ∈ t.rows, (Row.get r v).isSome := by
    intro v hv
    obtain ⟨c, hc, rfl⟩ := List.mem_map.mp hv
    exact hcols c hc
  unfold realRecords
  rw [melt_eq_of_isSome hvs]
  simpa using rewriteIntents_meltPure t kind sel hmem hkind

theorem longBlocks_length (t : Table) (kind : String) (sel : List (String × String)) :
    (longBlocks t kind sel).length = sel.length * t.rows.length := by
  induction sel with
  | nil => simp [longBlocks]
  | cons c cs ih =>
    simp only [longBlocks, List.length_append, List.length_map, List.length_cons, ih,
      Nat.succ_mul]
    omega

theorem longBlocks_getElem (t : Table) (kind : String) (sel : List (String × String))
    (i j : ℕ) (hi : i < sel.length) (hj : j < t.rows.length) :
    (longBlocks t kind sel)[i * t.rows.length + j]? =
      some ⟨(t.rows[j]).date_, (sel[i]).1,
            ((t.rows[j]).get (colName (sel[i]) kind)).getD 0⟩ := by
  induction sel generalizing i with
  | nil => cases hi
  | cons c cs ih =>
    cases i with
    | zero =>
      simp only [longBlocks, Nat.zero_mul, Nat.zero_add, List.getElem_cons_zero]
      rw [List.getElem?_append]
      rw [if_pos (by simpa using hj)]
      rw [List.getElem?_map, List.getElem?_eq_getElem hj]
      rfl
    | succ i2 =>
      have hlen :
          (List.map (fun r =>
            (⟨r.date_, c.1, (r.get (colName c kind)).getD 0⟩ : LongRecord)) t.rows).length =
            t.rows.length := List.length_map _ _
      simp only [longBlocks, List.getElem_cons_succ]
      rw [List.getElem?_append, if_neg, hlen]
      · have harith : (i2 + 1) * t.rows.length + j - t.rows.length =
            i2 * t.rows.length + j := by
          rw [Nat.succ_mul]; omega
        rw [harith]
        exact ih i2 (Nat.lt_of_succ_lt_succ hi)
      · rw [hlen, Nat.succ_mul]
        omega

theorem padMinDate_eq {real : List LongRecord} {minD : Int}
    (hmin : seriesMin (real.map LongRecord.date_) = some minD) :
    padMinDate real = minD := by
  simp [padMinDate, hmin]

theorem padChart_eq (r0 : LongRecord) (rs : List LongRecord) (m : ℚ)
    (hm : seriesMax ((r0 :: rs).map LongRecord.value) = some m) :
    padChart (r0 :: rs) =
      (r0 :: rs) ++ [⟨padMinDate (r0 :: rs), r0.intent, 0⟩,
                     ⟨padMinDate (r0 :: rs), r0.intent, max m 0 * (21 / 20)⟩] := by
  have h2 : seriesMax
      (((r0 :: rs) ++ [(⟨padMinDate (r0 :: rs), r0.intent, 0⟩ : LongRecord)]).map
        LongRecord.value) = some (max m 0) := by
    rw [List.map_append]
    simpa using seriesMax_concat (l := (r0 :: rs).map LongRecord.value) 0 hm
  simp only [padChart]
  rw [h2]
  simp

theorem reshape_eq_pad {t : Table} {sel : List (String × String)} {kind : String}
    {real : List LongRecord} (hsel : sel ≠ [])
    (hreal : realRecords t sel kind = some real) :
    reshape t sel kind = some (padChart real) := by
  simp [reshape, hsel, hreal]

theorem reshape_getLast_value {t : Table} {sel : List (String × String)}
    {kind : String} {real : List LongRecord} {m : ℚ} (hsel : sel ≠ [])
    (hreal : realRecords t sel kind = some real)
    (hmax : seriesMax (real.map LongRecord.value) = some m) :
    ((reshape t sel kind).bind List.getLast?).map LongRecord.value =
      some (max m 0 * (21 / 20)) := by
  obtain ⟨r0, rs, rfl⟩ : ∃ r0 rs, real = r0 :: rs := by
    cases real with
    | nil => simp [seriesMax] at hmax
    | cons r0 rs => exact ⟨r0, rs, rfl⟩
  rw [reshape_eq_pad hsel hreal, padChart_eq r0 rs m hmax]
  have hlast : ∀ (l : List LongRecord) (a b : LongRecord),
      (l ++ [a, b]).getLast? = some b := by
    intro l a b
    rw [show l ++ [a, b] = (l ++ [a]) ++ [b] by simp]
    exact List.getLast?_concat _
  simp only [Option.some_bind]
  rw [hlast]
  rfl

theorem meltCol_value_mem {v : String} {rows : List Row} {l : List LongRecord}
    (h : meltCol v rows = some l) :
    ∀ rec ∈ l, ∃ row ∈ rows, Row.get row v = some rec.value := by
  induction rows generalizing l with
  | nil =>
    simp only [meltCol, Option.some_inj] at h
    subst h
    intro rec hrec
    cases hrec
  | cons r rs ih =>
    simp only [meltCol] at h
    cases hq : r.get v with
    | none => rw [hq] at h; simp at h
    | some q =>
      rw [hq] at h
      cases hrest : meltCol v rs with
      | none => rw [hrest] at h; simp at h
      | some lr =>
        rw [hrest] at h
        simp at h
        subst h
        intro rec hrec
        rcases List.mem_cons.mp hrec with rfl | hrec2
        · exact ⟨r, by simp, by simpa using hq⟩
        · obtain ⟨row, hrow, hval⟩ := ih hrest rec hrec2
          exact ⟨row, by simp [hrow], hval⟩

theorem melt_value_mem {t : Table} {vs : List String} {l : List LongRecord}
    (h : melt t vs = some l) :
    ∀ rec ∈ l, ∃ row ∈ t.rows, ∃ v, Row.get row v = some rec.value := by
  induction vs generalizing l with
  | nil =>
    simp only [melt, Option.some_inj] at h
    subst h
    intro rec hrec
    cases hrec
  | cons v vs2 ih =>
    simp only [melt] at h
    cases hb : meltCol v t.rows with
    | none => rw [hb] at h; simp at h
    | some b =>
      rw [hb] at h
      cases hrest : melt t vs2 with
      | none => rw [hrest] at h; simp at h
      | some rest =>
        rw [hrest] at h
        simp at h
        subst h
        intro rec hrec
        rcases List.mem_append.mp hrec with hb2 | hrest2
        · obtain ⟨row, hrow, hval⟩ := meltCol_value_mem hb rec hb2
          exact ⟨row, hrow, v, hval⟩
        · exact ih hrest rec hrest2

theorem rewriteIntents_value_mem {l l2 : List LongRecord}
    (h : rewriteIntents l = some l2) :
    ∀ rec ∈ l2, ∃ rec0 ∈ l, rec0.value = rec.value := by
  induction l generalizing l2 with
  | nil =>
    simp only [rewriteIntents, Option.some_inj] at h
    subst h
    intro rec hrec
    cases hrec
  | cons r rs ih =>
    simp only [rewriteIntents] at h
    cases hf : firstMatch r.intent with
    | none => rw [hf] at h; simp at h
    | some lbl =>
      rw [hf] at h
      cases hrest : rewriteIntents rs with
      | none => rw [hrest] at h; simp at h
      | some rest =>
        rw [hrest] at h
        simp at h
        subst h
        intro rec hrec
        rcases List.mem_cons.mp hrec with rfl | hrec2
        · exact ⟨r, by simp, rfl⟩
        · obtain ⟨rec0, hrec0, hval⟩ := ih hrest rec hrec2
          exact ⟨rec0, by simp [hrec0], hval⟩

theorem realRecords_value_nonneg {t : Table} {sel : List (String × String)}
    {kind : String} {real : List LongRecord}
    (hnn : ∀ row ∈ t.rows, ∀ p ∈ row.cells, 0 ≤ p.2)
    (hreal : realRecords t sel kind = some real) :
    ∀ rec ∈ real, 0 ≤ rec.value := by
  intro rec hrec
  unfold realRecords at hreal
  cases hm : melt t (intentCols sel kind) with
  | none => rw [hm] at hreal; simp at hreal
  | some melted =>
    rw [hm] at hreal
    simp only [Option.some_bind] at hreal
    obtain ⟨rec0, hrec0, hval⟩ := rewriteIntents_value_mem hreal rec hrec
    obtain ⟨row, hrow, v, hv⟩ := melt_value_mem hm rec0 hrec0
    unfold Row.get at hv
    cases hfind : row.cells.find? (fun p => p.1 = v) with
    | none => rw [hfind] at hv; simp at hv
    | some p =>
      rw [hfind] at hv
      simp at hv
      have hp := List.mem_of_find?_eq_some hfind
      have h0 := hnn row hrow p hp
      rw [hv] at h0
      exact hval ▸ h0

/-!  Lemmas about the rename table and frame operations. -/

theorem rename_map_inj_key :
    ∀ e ∈ rename_map, ∀ e2 ∈ rename_map, e.1 = e2.1 → e = e2 := by decide

theorem rename_map_inj_val :
    ∀ e ∈ rename_map, ∀ e2 ∈ rename_map, e.2 = e2.2 → e = e2 := by decide

theorem rename_map_key_ne_val :
    ∀ e ∈ rename_map, ∀ e2 ∈ rename_map, e.1 ≠ e2.2 := by decide

theorem rename_map_ne_date :
    ∀ e ∈ rename_map, e.1 ≠ "date_" ∧ e.2 ≠ "date_" := by decide

theorem renameCol_key {e : String × String} (he : e ∈ rename_map) :
    renameCol e.1 = e.2 := by
  unfold renameCol
  cases hf : rename_map.find? (fun p => p.1 = e.1) with
  | none =>
    exfalso
    have h1 := List.find?_eq_none.mp hf e he
    simp at h1
  | some e2 =>
    have h1 := List.find?_some hf
    simp at h1
    exact congrArg Prod.snd (rename_map_inj_key e2 (List.mem_of_find?_eq_some hf) e he h1)

theorem renameCol_not_key {c : String} (hc : ∀ e ∈ rename_map, e.1 ≠ c) :
    renameCol c = c := by
  unfold renameCol
  cases hf : rename_map.find? (fun p => p.1 = c) with
  | none => rfl
  | some e2 =>
    have h1 := List.find?_some hf
    simp at h1
    exact absurd h1 (hc e2 (List.mem_of_find?_eq_some hf))

theorem renameCol_ne_key {c : String} {e : String × String} (he : e ∈ rename_map) :
    renameCol c ≠ e.1 := by
  unfold renameCol
  cases hf : rename_map.find? (fun p => p.1 = c) with
  | none =>
    intro hcc
    have h1 := List.find?_eq_none.mp hf e he
    simp at h1
    exact h1 hcc.symm
  | some e2 =>
    intro hcc
    exact rename_map_key_ne_val e he e2 (List.mem_of_find?_eq_some hf) hcc.symm

theorem renameCol_eq_val_iff {e : String × String} (he : e ∈ rename_map) (n : String) :
    renameCol n = e.2 ↔ (n = e.1 ∨ n = e.2) := by
  constructor
  · intro h
    unfold renameCol at h
    cases hf : rename_map.find? (fun p => p.1 = n) with
    | none => rw [hf] at h; exact Or.inr h
    | some e2 =>
      rw [hf] at h
      have h1 := List.find?_some hf
      simp at h1
      have h2 := rename_map_inj_val e2 (List.mem_of_find?_eq_some hf) e he h
      exact Or.inl (h1.symm.trans (congrArg Prod.fst h2))
  · intro h
    rcases h with h | h
    · exact h ▸ renameCol_key he
    · subst h
      exact renameCol_not_key (fun e2 he2 => rename_map_key_ne_val e2 he2 e he)

theorem find?_congr_pred {α : Type} {l : List α} {p q : α → Bool}
    (h : ∀ x ∈ l, p x = q x) : l.find? p = l.find? q := by
  induction l with
  | nil => rfl
  | cons a as ih =>
    rw [List.find?_cons, List.find?_cons, h a (by simp)]
    cases hq : q a with
    | true => simp
    | false => exact ih (fun x hx => h x (by simp [hx]))

theorem getCol_renameFrame (l : List (String × Series)) (c : String) :
    Frame.getCol (renameFrame ⟨l⟩) c =
      (l.find? (fun p => renameCol p.1 = c)).map Prod.snd := by
  unfold Frame.getCol renameFrame
  rw [List.find?_map, Option.map_map]
  rfl

theorem getCol_rename_of_fixed (l : List (String × Series)) (c : String)
    (hiff : ∀ n, renameCol n = c ↔ n = c) :
    Frame.getCol (renameFrame ⟨l⟩) c = Frame.getCol ⟨l⟩ c := by
  rw [getCol_renameFrame]
  unfold Frame.getCol
  rw [find?_congr_pred (q := fun p => decide (p.1 = c))
    (fun x _ => decide_eq_decide.mpr (hiff x.1))]

theorem getCol_rename_key (l : List (String × Series)) {e : String × String}
    (he : e ∈ rename_map) (hno : ∀ p ∈ l, p.1 ≠ e.2) :
    Frame.getCol (renameFrame ⟨l⟩) e.2 = Frame.getCol ⟨l⟩ e.1 := by
  rw [getCol_renameFrame]
  unfold Frame.getCol
  rw [find?_congr_pred (q := fun p => decide (p.1 = e.1))]
  intro x hx
  apply decide_eq_decide.mpr
  constructor
  · intro hh
    rcases (renameCol_eq_val_iff he x.1).mp hh with h3 | h3
    · exact h3
    · exact absurd h3 (hno x hx)
  · intro hh
    exact (renameCol_eq_val_iff he x.1).mpr (Or.inl hh)

theorem colNames_renameFrame (f : Frame) :
    (renameFrame f).colNames = f.colNames.map renameCol := by
  simp [renameFrame, Frame.colNames, List.map_map]

theorem setCol_pred_comp (c c2 : String) (s2 : Series) :
    ((fun q : String × Series => decide (q.1 = c2)) ∘
      (fun p : String × Series => if p.1 = c then (p.1, s2) else p)) =
    (fun p : String × Series => decide (p.1 = c2)) := by
  funext p
  by_cases hp : p.1 = c <;> simp [hp]

theorem getCol_setCol_self (l : List (String × Series)) (c : String) (s2 : Series)
    (h : (Frame.getCol ⟨l⟩ c).isSome) :
    Frame.getCol (Frame.setCol ⟨l⟩ c s2) c = some s2 := by
  unfold Frame.getCol Frame.setCol
  rw [List.find?_map, setCol_pred_comp, Option.map_map]
  unfold Frame.getCol at h
  cases hf : l.find? (fun p => decide (p.1 = c)) with
  | none => rw [hf] at h; simp at h
  | some p =>
    have h1 := List.find?_some hf
    simp at h1
    simp [hf, h1]

theorem getCol_setCol_ne (l : List (String × Series)) (c c2 : String) (s2 : Series)
    (h : c2 ≠ c) :
    Frame.getCol (Frame.setCol ⟨l⟩ c s2) c2 = Frame.getCol ⟨l⟩ c2 := by
  unfold Frame.getCol Frame.setCol
  rw [List.find?_map, setCol_pred_comp, Option.map_map]
  cases hf : l.find? (fun p => decide (p.1 = c2)) with
  | none => simp
  | some p =>
    have h1 := List.find?_some hf
    simp at h1
    have hpc : ¬ (p.1 = c) := fun hh => h (h1 ▸ hh)
    simp [hpc]

theorem colNames_setCol (l : List (String × Series)) (c : String) (s2 : Series) :
    (Frame.setCol ⟨l⟩ c s2).colNames = Frame.colNames ⟨l⟩ := by
  unfold Frame.colNames Frame.setCol
  rw [List.map_map]
  apply List.map_congr_left
  intro p _
  by_cases hp : p.1 = c <;> simp [hp]

theorem mem_colNames_iff_getCol (l : List (String × Series)) (c : String) :
    c ∈ Frame.colNames ⟨l⟩ ↔ (Frame.getCol ⟨l⟩ c).isSome := by
  unfold Frame.colNames Frame.getCol
  have hmap : ∀ (x : Option (String × Series)), (x.map Prod.snd).isSome = x.isSome := by
    intro x
    cases x <;> rfl
  rw [hmap, List.find?_isSome]
  simp [eq_comm]

/-- Does a cell hold a number or a null (NaN)?  The metric columns of the
dashboard only contain such cells. -/
def numOrNull : Value → Bool
  | Value.vnum _ => true
  | Value.vnull => true
  | _ => false

/-- The numeric content of a cell, a null cell reading as 0. -/
def numOrZero : Value → ℚ
  | Value.vnum q => q
  | _ => 0

theorem seriesSum_eq_map_sum (l : List Value) (h : ∀ v ∈ l, numOrNull v = true) :
    seriesSum l = (l.map numOrZero).sum := by
  induction l with
  | nil => rfl
  | cons v vs ih =>
    have hv := h v (by simp)
    have ih2 := ih (fun w hw => h w (by simp [hw]))
    cases v with
    | vnum q => simp [seriesSum, numOrZero, ih2]
    | vnull => simp [seriesSum, numOrZero, ih2]
    | vstr s => simp [numOrNull] at hv
    | vdate d => simp [numOrNull] at hv

/-- `df[c].sum()` on the loaded numeric table (layer-2 counterpart of
`colSum`): missing (null) cells contribute 0. -/
def Table.sumCol (t : Table) (c : String) : ℚ :=
  (t.rows.map (fun r => (r.get c).getD 0)).sum

/-- The variables the dashboard script binds after `load_data` returned the
table `df` (source lines 38-196). -/
structure DashboardState where
  df : Table
  filtered_df : Table
  total_sessions : ℚ
  total_messages : ℚ
  filtered_total_sessions : ℚ
  filtered_total_messages : ℚ
  sessions_melted : Option (List LongRecord)
  messages_melted : Option (List LongRecord)

/-- The straight-line dashboard script after `load_data` (source lines
38-196), one `let` per assignment, in source order: the aggregations
(lines 68, 72, 104, 108), the alias `filtered_df = df` (line 98), and the
two melt/pad pipelines (lines 121-142, 161-182).  No statement ever
reassigns `df`. -/
def runDashboard (df0 : Table) (sel : List (String × String)) : DashboardState :=
  let df := df0
  let total_sessions := df.sumCol "overall_sessions"
  let total_messages := df.sumCol "overall_messages"
  let filtered_df := df
  let filtered_total_sessions := filtered_df.sumCol "overall_sessions"
  let filtered_total_messages := filtered_df.sumCol "overall_messages"
  let sessions_melted := reshape filtered_df sel "sessions"
  let messages_melted := reshape filtered_df sel "messages"
  ⟨df, filtered_df, total_sessions, total_messages,
   filtered_total_sessions, filtered_total_messages,
   sessions_melted, messages_melted⟩

theorem renameCol_date_iff (n : String) :
    renameCol n = "date_" ↔ n = "date_" := by
  constructor
  · intro hh
    unfold renameCol at hh
    cases hf : rename_map.find? (fun p => p.1 = n) with
    | none => rw [hf] at hh; exact hh
    | some e2 =>
      rw [hf] at hh
      exact absurd hh ((rename_map_ne_date e2 (List.mem_of_find?_eq_some hf)).2)
  · intro hh
    subst hh
    exact renameCol_not_key (fun e he => (rename_map_ne_date e he).1)

theorem padChart_getElem_lt (real : List LongRecord) (n : ℕ) (hn : n < real.length) :
    (padChart real)[n]? = real[n]? := by
  cases real with
  | nil => simp at hn
  | cons r0 rs =>
    have h1 : padChart (r0 :: rs) =
        ((r0 :: rs) ++ [(⟨padMinDate (r0 :: rs), r0.intent, 0⟩ : LongRecord)]) ++
          [(⟨padMinDate (r0 :: rs), r0.intent,
            (seriesMax (((r0 :: rs) ++
              [(⟨padMinDate (r0 :: rs), r0.intent, 0⟩ : LongRecord)]).map
              LongRecord.value)).getD 0 * (21 / 20)⟩ : LongRecord)] := rfl
    rw [h1, List.getElem?_append,
      if_pos (by simp only [List.length_append, List.length_cons] at hn ⊢; omega),
      List.getElem?_append, if_pos hn]

/-!  The claims. -/

/-- A 2-row, 2-category table used to settle the ordering claim. -/
def tableA : Table :=
  ⟨[⟨0, [("sb_hardware_sessions", 10), ("edc_hardware_sessions", 30)]⟩,
    ⟨1, [("sb_hardware_sessions", 20), ("edc_hardware_sessions", 40)]⟩]⟩

/-- Two selected categories, in the order supplied. -/
def selA : List (String × String) :=
  [("Soundbox Hardware", "sb_hardware"), ("EDC Hardware", "edc_hardware")]

/-- C1 (counterexample): the claim puts record (row 0, category 1) at
position 0 * 2 + 1 = 1, i.e. `(date 0, "EDC Hardware", 30)`; the code's melt
emits the blocks column-wise, so position 1 actually holds the second row of
the first category, `(date 1, "Soundbox Hardware", 20)`. -/
theorem C1_counterexample :
    (reshape tableA selA "sessions").bind (fun l => l[0 * 2 + 1]?) =
      some ⟨1, "Soundbox Hardware", 20⟩ ∧
    (⟨1, "Soundbox Hardware", 20⟩ : LongRecord) ≠ ⟨0, "EDC Hardware", 30⟩ := by
  constructor
  · with_unfolding_all decide
  · with_unfolding_all decide

/-- C1 (amended): reshape emits the real records in column-major order: the
selected categories are iterated in the order supplied as the outer loop,
and the table's rows (date-ascending) as the inner loop, so the record for
row `j` of category `i` sits at position `i * N + j` (N = number of rows),
carrying the row's date, the category's label, and the row's cell of the
derived column. -/
theorem C1_melt_order (t : Table) (sel : List (String × String)) (kind : String)
    (hmem : ∀ c ∈ sel, c ∈ category_mapping)
    (hkind : kind = "sessions" ∨ kind = "messages")
    (hcols : ∀ c ∈ sel, ∀ r ∈ t.rows, (Row.get r (colName c kind)).isSome)
    (_hsort : t.rows.Chain' (fun a b => a.date_ ≤ b.date_))
    (i j : ℕ) (hi : i < sel.length) (hj : j < t.rows.length) :
    (reshape t sel kind).bind (fun l => l[i * t.rows.length + j]?) =
      some ⟨(t.rows[j]).date_, (sel[i]).1,
            ((t.rows[j]).get (colName (sel[i]) kind)).getD 0⟩ := by
  have hsel : sel ≠ [] := by
    intro hh
    rw [hh] at hi
    simp at hi
  have hreal := realRecords_eq t sel kind hmem hkind hcols
  have hidx : i * t.rows.length + j < (longBlocks t kind sel).length := by
    rw [longBlocks_length]
    have h1 : i * t.rows.length + j < (i + 1) * t.rows.length := by
      rw [Nat.succ_mul]
      omega
    have h2 : (i + 1) * t.rows.length ≤ sel.length * t.rows.length :=
      Nat.mul_le_mul hi (le_refl _)
    exact lt_of_lt_of_le h1 h2
  rw [reshape_eq_pad hsel hreal]
  simp only [Option.some_bind]
  rw [padChart_getElem_lt _ _ hidx]
  exact longBlocks_getElem t kind sel i j hi hj

/-- C1 witness: on `tableA`/`selA`, the record for row 0 of category 1 sits
at position 1 * 2 + 0 = 2 and is `(date 0, "EDC Hardware", 30)`. -/
theorem C1_melt_order_witness :
    (reshape tableA selA "sessions").bind
        (fun l => l[1 * tableA.rows.length + 0]?) =
      some ⟨0, "EDC Hardware", 30⟩ := by
  have hsort : List.Chain' (fun a b : Row => a.date_ ≤ b.date_) tableA.rows := by
    show List.Chain' _ [_, _]
    exact List.chain'_pair.mpr (by decide)
  have h := C1_melt_order tableA selA "sessions" (by decide) (Or.inl rfl)
    (by decide) hsort 1 0 (by decide) (by decide)
  exact h.trans (by with_unfolding_all decide)

/-- A 1-row table whose only metric value is negative. -/
def tableB : Table := ⟨[⟨0, [("sb_hardware_sessions", -1)]⟩]⟩

/-- A single selected category. -/
def selB : List (String × String) := [("Soundbox Hardware", "sb_hardware")]

/-- C2 (counterexample): with a single real value -1, the maximum over the
real records alone is -1, so the claim predicts a top-buffer value of
-1 * 1.05 = -21/20; the code takes the maximum after the zero row was
appended (max (-1) 0 = 0) and emits 0 instead. -/
theorem C2_counterexample :
    reshape tableB selB "sessions" =
      some [⟨0, "Soundbox Hardware", -1⟩, ⟨0, "Soundbox Hardware", 0⟩,
            ⟨0, "Soundbox Hardware", 0⟩] ∧
    seriesMax ([⟨0, "Soundbox Hardware", -1⟩].map LongRecord.value) = some (-1) ∧
    (0 : ℚ) ≠ (-1) * (21 / 20) := by
  refine ⟨?_, ?_, ?_⟩ <;> with_unfolding_all decide

/-- C2 (amended): the last record of reshape's output (the second synthetic
padding record) has value `max(real maximum, 0) * 1.05`: the maximum is
computed after — and including — the zero-floor record appended in the
previous step.  It agrees with the claim's `1.05 * real maximum` exactly
when the real maximum is non-negative. -/
theorem C2_headroom (t : Table) (sel : List (String × String)) (kind : String)
    (real : List LongRecord) (m : ℚ) (hsel : sel ≠ [])
    (hreal : realRecords t sel kind = some real)
    (hmax : seriesMax (real.map LongRecord.value) = some m) :
    ((reshape t sel kind).bind List.getLast?).map LongRecord.value =
      some (max m 0 * (21 / 20)) :=
  reshape_getLast_value hsel hreal hmax

/-- A 2-row positive table for the C2 witness. -/
def tableB2 : Table :=
  ⟨[⟨0, [("sb_hardware_sessions", 10)]⟩, ⟨1, [("sb_hardware_sessions", 20)]⟩]⟩

/-- The real records reshape emits for `tableB2`/`selB`. -/
def realB2 : List LongRecord :=
  [⟨0, "Soundbox Hardware", 10⟩, ⟨1, "Soundbox Hardware", 20⟩]

/-- C2 witness: real maximum 20, so the headroom record carries
`max 20 0 * 1.05 = 21`. -/
theorem C2_headroom_witness :
    ((reshape tableB2 selB "sessions").bind List.getLast?).map LongRecord.value =
      some (max 20 0 * (21 / 20)) :=
  C2_headroom tableB2 selB "sessions" realB2 20 (by decide)
    (by with_unfolding_all decide) (by with_unfolding_all decide)

/-- A 1-row table whose only metric value is -2. -/
def tableC : Table := ⟨[⟨0, [("sb_hardware_sessions", -2)]⟩]⟩

/-- C3 (counterexample): with one row and one category the output does have
1*1 + 2 records, but the second synthetic record's value is 0, not
`1.05 * max(real values) = -2.1` as the claim states. -/
theorem C3_counterexample :
    reshape tableC selB "sessions" =
      some [⟨0, "Soundbox Hardware", -2⟩, ⟨0, "Soundbox Hardware", 0⟩,
            ⟨0, "Soundbox Hardware", 0⟩] ∧
    seriesMax ([⟨0, "Soundbox Hardware", -2⟩].map LongRecord.value) = some (-2) ∧
    (0 : ℚ) ≠ (-2) * (21 / 20) := by
  refine ⟨?_, ?_, ?_⟩ <;> with_unfolding_all decide

/-- C3 (amended): for a non-empty table and selection whose derived columns
exist, reshape returns the k*N real records followed by exactly two
synthetic records, both dated with the minimum real date and labelled with
the first real record's label, with values 0 and
`max(real maximum, 0) * 1.05` (the claim's `1.05 * real maximum` whenever
the real maximum is non-negative). -/
theorem C3_shape (t : Table) (sel : List (String × String)) (kind : String)
    (real : List LongRecord) (r0 : LongRecord) (minD : Int) (maxV : ℚ)
    (hmem : ∀ c ∈ sel, c ∈ category_mapping)
    (hkind : kind = "sessions" ∨ kind = "messages")
    (hcols : ∀ c ∈ sel, ∀ r ∈ t.rows, (Row.get r (colName c kind)).isSome)
    (hsel : sel ≠ [])
    (hreal : realRecords t sel kind = some real)
    (hhead : real.head? = some r0)
    (hmin : seriesMin (real.map LongRecord.date_) = some minD)
    (hmax : seriesMax (real.map LongRecord.value) = some maxV) :
    reshape t sel kind =
      some (real ++ [⟨minD, r0.intent, 0⟩,
                     ⟨minD, r0.intent, max maxV 0 * (21 / 20)⟩]) ∧
    real.length = sel.length * t.rows.length := by
  constructor
  · obtain ⟨r0x, rs, rfl⟩ : ∃ a b, real = a :: b := by
      cases real with
      | nil => simp at hhead
      | cons a b => exact ⟨a, b, rfl⟩
    have hr0 : r0x = r0 := by simpa using hhead
    subst r0x
    rw [reshape_eq_pad hsel hreal, padChart_eq r0 rs maxV hmax, padMinDate_eq hmin]
  · have h2 := realRecords_eq t sel kind hmem hkind hcols
    rw [hreal] at h2
    have heq : real = longBlocks t kind sel := by simpa using h2
    rw [heq, longBlocks_length]

/-- C3 witness: two rows, one category, values 10 and 20: output is the two
real records, then the zero record and the 21-valued headroom record, and
the real part has 1*2 records. -/
theorem C3_shape_witness :
    reshape tableB2 selB "sessions" =
      some (realB2 ++ [⟨0, (⟨0, "Soundbox Hardware", (10 : ℚ)⟩ : LongRecord).intent, 0⟩,
        ⟨0, (⟨0, "Soundbox Hardware", (10 : ℚ)⟩ : LongRecord).intent,
          max 20 0 * (21 / 20)⟩]) ∧
    realB2.length = selB.length * tableB2.rows.length :=
  C3_shape tableB2 selB "sessions" realB2 ⟨0, "Soundbox Hardware", 10⟩ 0 20
    (by decide) (Or.inl rfl) (by decide) (by decide)
    (by with_unfolding_all decide) (by with_unfolding_all decide)
    (by with_unfolding_all decide) (by with_unfolding_all decide)

/-- A frame whose `date_` column is numeric (int64), e.g. dates read as
`20241101`-style integers. -/
def frameD : Frame := ⟨[("date_", ⟨Dtype.int64, [Value.vnum 1]⟩)]⟩

/-- C4 (counterexample): the loader only parses the date column when its
dtype is `object`; an int64 date column is neither object nor a date/time
type, and `load_data` leaves it untouched, so after `load()` the date
column's values are not a date/time type, contradicting the claim. -/
theorem C4_counterexample :
    load_data (fun _ => 0) frameD = some frameD ∧
    (frameD.getCol "date_").map Series.dtype = some Dtype.int64 ∧
    Dtype.int64 ≠ Dtype.datetime64 := by
  refine ⟨?_, ?_, ?_⟩ <;> with_unfolding_all decide

/-- C4 (amended): `load_data` parses the date column into dates exactly when
its dtype is `object` (strings); any other dtype — an already-parsed
datetime column, but also a numeric column — is left unchanged. -/
theorem C4_date_conversion (parse : String → Int) (df df2 : Frame) (s : Series)
    (hs : df.getCol "date_" = some s)
    (hload : load_data parse df = some df2) :
    (s.dtype = Dtype.object →
      df2.getCol "date_" = some (toDatetimeSeries parse s)) ∧
    (s.dtype ≠ Dtype.object → df2.getCol "date_" = some s) := by
  unfold load_data at hload
  rw [hs] at hload
  simp only [Option.map_some', Option.some_inj] at hload
  constructor
  · intro hobj
    rw [if_pos hobj] at hload
    subst hload
    have h1 := getCol_rename_of_fixed
      (Frame.setCol df "date_" (toDatetimeSeries parse s)).cols "date_" renameCol_date_iff
    have h2 : Frame.getCol (Frame.setCol df "date_" (toDatetimeSeries parse s)) "date_" =
        some (toDatetimeSeries parse s) := by
      apply getCol_setCol_self df.cols "date_" (toDatetimeSeries parse s)
      show (df.getCol "date_").isSome
      rw [hs]
      rfl
    exact h1.trans h2
  · intro hnobj
    rw [if_neg hnobj] at hload
    subst hload
    have h1 := getCol_rename_of_fixed df.cols "date_" renameCol_date_iff
    exact h1.trans hs

/-- A frame whose `date_` column holds date strings (dtype object). -/
def frameD2 : Frame := ⟨[("date_", ⟨Dtype.object, [Value.vstr "2024-11-01"]⟩)]⟩

/-- `frameD2` after `load_data` with a parser sending everything to day 5. -/
def frameD2_loaded : Frame := ⟨[("date_", ⟨Dtype.datetime64, [Value.vdate 5]⟩)]⟩

/-- C4 witness: an object-typed date column is parsed cell by cell into a
datetime column. -/
theorem C4_date_conversion_witness :
    load_data (fun _ => 5) frameD2 = some frameD2_loaded ∧
    frameD2_loaded.getCol "date_" =
      some ⟨Dtype.datetime64, [Value.vdate 5]⟩ := by
  have h := C4_date_conversion (fun _ => 5) frameD2 frameD2_loaded
    ⟨Dtype.object, [Value.vstr "2024-11-01"]⟩
    (by with_unfolding_all decide) (by with_unfolding_all decide)
  exact ⟨by with_unfolding_all decide, (h.1 rfl).trans (by with_unfolding_all decide)⟩

theorem rename_after (df3 df : Frame)
    (hnames3 : df3.colNames = df.colNames)
    (hget3 : ∀ c : String, c ≠ "date_" → df3.getCol c = df.getCol c)
    (hcan : ∀ e ∈ rename_map, e.2 ∉ df.colNames) :
    (∀ e ∈ rename_map, e.1 ∉ (renameFrame df3).colNames) ∧
    (∀ e ∈ rename_map, (renameFrame df3).getCol e.2 = df.getCol e.1) ∧
    (∀ e ∈ rename_map, e.1 ∈ df.colNames → e.2 ∈ (renameFrame df3).colNames) ∧
    (∀ c, c ∉ rename_map.map Prod.fst → c ∉ rename_map.map Prod.snd →
      c ≠ "date_" → (renameFrame df3).getCol c = df.getCol c) ∧
    ("date_" ∈ (renameFrame df3).colNames ↔ "date_" ∈ df.colNames) := by
  have hcon2 : ∀ e ∈ rename_map, (renameFrame df3).getCol e.2 = df.getCol e.1 := by
    intro e he
    have hno : ∀ p ∈ df3.cols, p.1 ≠ e.2 := by
      intro p hp hpe
      apply hcan e he
      rw [← hnames3]
      exact List.mem_map.mpr ⟨p, hp, hpe⟩
    have h1 := getCol_rename_key df3.cols he hno
    exact h1.trans (hget3 e.1 ((rename_map_ne_date e he).1))
  refine ⟨?_, hcon2, ?_, ?_, ?_⟩
  · intro e he hmem
    rw [colNames_renameFrame] at hmem
    obtain ⟨n, _, hrn⟩ := List.mem_map.mp hmem
    exact renameCol_ne_key he hrn
  · intro e he hleg
    apply (mem_colNames_iff_getCol (renameFrame df3).cols e.2).mpr
    have h2 : (renameFrame df3).getCol e.2 = df.getCol e.1 := hcon2 e he
    rw [show Frame.getCol ⟨(renameFrame df3).cols⟩ e.2 = (renameFrame df3).getCol e.2
      from rfl, h2]
    exact (mem_colNames_iff_getCol df.cols e.1).mp hleg
  · intro c hck hcv hcd
    have hiff : ∀ n, renameCol n = c ↔ n = c := by
      intro n
      constructor
      · intro hh
        unfold renameCol at hh
        cases hf : rename_map.find? (fun p => p.1 = n) with
        | none => rw [hf] at hh; exact hh
        | some e2 =>
          rw [hf] at hh
          exact absurd (List.mem_map.mpr ⟨e2, List.mem_of_find?_eq_some hf, hh⟩) hcv
      · intro hh
        subst hh
        apply renameCol_not_key
        intro e he hec
        exact hck (List.mem_map.mpr ⟨e, he, hec⟩)
    have h1 := getCol_rename_of_fixed df3.cols c hiff
    exact h1.trans (hget3 c hcd)
  · rw [colNames_renameFrame, ← hnames3]
    constructor
    · intro hmem
      obtain ⟨n, hn, hrn⟩ := List.mem_map.mp hmem
      exact (renameCol_date_iff n).mp hrn ▸ hn
    · intro hmem
      exact List.mem_map.mpr ⟨"date_", hmem, (renameCol_date_iff "date_").mpr rfl⟩

/-- C5 (amended): `load_data`'s rename is exact-match and case-sensitive:
after `load()`, none of the six legacy names is present, each canonical name
resolves to the values of its legacy counterpart (and is present whenever
the legacy column was), and every column that appears in neither side of the
rename table passes through with its name and values unchanged — with the
exception the counterexample forces: the `date_` column (also not in the
rename table) keeps its name, but its values may have been parsed by the
earlier date conversion, so it is excluded from the pass-through clause. -/
theorem C5_rename (parse : String → Int) (df df2 : Frame) (s : Series)
    (hdate : df.getCol "date_" = some s)
    (hload : load_data parse df = some df2)
    (hcan : ∀ e ∈ rename_map, e.2 ∉ df.colNames) :
    (∀ e ∈ rename_map, e.1 ∉ df2.colNames) ∧
    (∀ e ∈ rename_map, df2.getCol e.2 = df.getCol e.1) ∧
    (∀ e ∈ rename_map, e.1 ∈ df.colNames → e.2 ∈ df2.colNames) ∧
    (∀ c, c ∉ rename_map.map Prod.fst → c ∉ rename_map.map Prod.snd →
      c ≠ "date_" → df2.getCol c = df.getCol c) ∧
    ("date_" ∈ df2.colNames ↔ "date_" ∈ df.colNames) := by
  unfold load_data at hload
  rw [hdate] at hload
  simp only [Option.map_some', Option.some_inj] at hload
  subst hload
  apply rename_after
  · by_cases hobj : s.dtype = Dtype.object
    · rw [if_pos hobj]
      exact colNames_setCol df.cols "date_" _
    · rw [if_neg hobj]
  · intro c hc
    by_cases hobj : s.dtype = Dtype.object
    · rw [if_pos hobj]
      exact getCol_setCol_ne df.cols "date_" c _ hc
    · rw [if_neg hobj]
  · exact hcan

/-- A source frame with an object date column and the six legacy columns. -/
def frameE : Frame :=
  ⟨[("date_", ⟨Dtype.object, [Value.vstr "2024-11-01"]⟩),
    ("sb_sessions", ⟨Dtype.int64, [Value.vnum 1]⟩),
    ("sb_messages", ⟨Dtype.int64, [Value.vnum 2]⟩),
    ("edc_sessions", ⟨Dtype.int64, [Value.vnum 3]⟩),
    ("edc_messages", ⟨Dtype.int64, [Value.vnum 4]⟩),
    ("payment_acceptence_sessions", ⟨Dtype.int64, [Value.vnum 5]⟩),
    ("payment_acceptence_messages", ⟨Dtype.int64, [Value.vnum 6]⟩)]⟩

/-- A parser used with `frameE`, sending every date string to day 739191. -/
def parseE : String → Int := fun _ => 739191

/-- `frameE` after `load_data parseE`: the date column is parsed, the six
legacy columns are renamed in place. -/
def frameE_loaded : Frame :=
  ⟨[("date_", ⟨Dtype.datetime64, [Value.vdate 739191]⟩),
    ("sb_hardware_sessions", ⟨Dtype.int64, [Value.vnum 1]⟩),
    ("sb_hardware_messages", ⟨Dtype.int64, [Value.vnum 2]⟩),
    ("edc_hardware_sessions", ⟨Dtype.int64, [Value.vnum 3]⟩),
    ("edc_hardware_messages", ⟨Dtype.int64, [Value.vnum 4]⟩),
    ("payment_acceptance_sessions", ⟨Dtype.int64, [Value.vnum 5]⟩),
    ("payment_acceptance_messages", ⟨Dtype.int64, [Value.vnum 6]⟩)]⟩

/-- C5 (counterexample): `date_` is not in the rename table, yet after
`load()` its values differ from the input's (they were parsed into dates),
so "every column not in the rename table passes through with its name and
values unchanged" fails as a statement about `load()`. -/
theorem C5_counterexample :
    load_data parseE frameE = some frameE_loaded ∧
    "date_" ∉ rename_map.map Prod.fst ∧
    "date_" ∉ rename_map.map Prod.snd ∧
    frameE_loaded.getCol "date_" ≠ frameE.getCol "date_" := by
  refine ⟨?_, ?_, ?_, ?_⟩ <;> decide

/-- C5 witness: on `frameE` the legacy column `sb_sessions` disappears, the
canonical `sb_hardware_sessions` carries its values, and an untouched
non-date column such as `edc_sessions`'s canonical twin resolves correctly. -/
theorem C5_rename_witness :
    frameE_loaded.getCol "sb_hardware_sessions" = frameE.getCol "sb_sessions" ∧
    "sb_sessions" ∉ frameE_loaded.colNames ∧
    "sb_hardware_sessions" ∈ frameE_loaded.colNames := by
  have h := C5_rename parseE frameE frameE_loaded
    ⟨Dtype.object, [Value.vstr "2024-11-01"]⟩
    (by decide) (by decide) (by decide)
  refine ⟨h.2.1 ("sb_sessions", "sb_hardware_sessions") (by decide), ?_, ?_⟩
  · exact h.1 ("sb_sessions", "sb_hardware_sessions") (by decide)
  · exact h.2.2.1 ("sb_sessions", "sb_hardware_sessions") (by decide) (by decide)

/-- C6: `df[c].sum()` over an existing numeric-or-null column is the
arithmetic sum of its values with every null cell contributing 0, and it is
0 when the column (the table) is empty. -/
theorem C6_sum (f : Frame) (c : String) (s : Series)
    (h : f.getCol c = some s)
    (hv : ∀ v ∈ s.vals, numOrNull v = true) :
    colSum f c = some ((s.vals.map numOrZero).sum) ∧
    (s.vals = [] → colSum f c = some 0) := by
  have h1 : colSum f c = some (seriesSum s.vals) := by
    simp [colSum, h]
  constructor
  · rw [h1, seriesSum_eq_map_sum s.vals hv]
  · intro he
    rw [h1, he]
    rfl

/-- A one-column frame with a null cell among the numbers. -/
def frameF : Frame :=
  ⟨[("overall_sessions", ⟨Dtype.float64, [Value.vnum 5, Value.vnull, Value.vnum 3]⟩)]⟩

/-- C6 witness: summing `[5, null, 3]` yields 8 — the null reads as 0. -/
theorem C6_sum_witness :
    colSum frameF "overall_sessions" =
      some (([Value.vnum 5, Value.vnull, Value.vnum 3].map numOrZero).sum) := by
  have h := C6_sum frameF "overall_sessions"
    ⟨Dtype.float64, [Value.vnum 5, Value.vnull, Value.vnum 3]⟩
    (by with_unfolding_all decide) (by decide)
  exact h.1

/-- C7: reshape returns an empty sequence — no real records and no padding —
when no category is selected, and likewise when the table has no rows. -/
theorem C7_empty (t : Table) (sel : List (String × String)) (kind : String) :
    reshape t [] kind = some [] ∧
    (t.rows = [] → reshape t sel kind = some []) := by
  constructor
  · simp [reshape]
  · intro hrows
    by_cases hsel : sel = []
    · simp [reshape, hsel]
    · have hmelt : ∀ vs : List String, melt t vs = some [] := by
        intro vs
        induction vs with
        | nil => rfl
        | cons v vs2 ih => simp [melt, hrows, meltCol, ih]
      simp [reshape, hsel, realRecords, hmelt, rewriteIntents, padChart]

/-- C7 witness: the empty table with a category selected, and an empty
selection, both reshape to the empty sequence. -/
theorem C7_empty_witness :
    reshape (⟨[]⟩ : Table) [("Soundbox Hardware", "sb_hardware")] "sessions" =
      some [] ∧
    reshape (⟨[]⟩ : Table) [] "sessions" = some [] := by
  have h := C7_empty ⟨[]⟩ [("Soundbox Hardware", "sb_hardware")] "sessions"
  exact ⟨h.2 rfl, h.1⟩

/-- C8: for every registry entry and both metric kinds, the first-match
lookup on the derived column name succeeds with that entry's own label,
agrees with the exact reverse lookup by column stem, and no other registry
stem is a string-prefix of the derived column name. -/
theorem C8_lookup :
    ∀ c ∈ category_mapping, ∀ kind ∈ (["sessions", "messages"] : List String),
      firstMatch (colName c kind) = some c.1 ∧
      firstMatch (colName c kind) = reverseLookup c.2 ∧
      ∀ d ∈ category_mapping, d.2 ≠ c.2 →
        strStartsWith (colName c kind) d.2 = false := by
  decide

/-- C8 witness: the Soundbox entry's sessions column resolves to its own
label, matches the reverse lookup, and is not prefixed by the EDC stem. -/
theorem C8_lookup_witness :
    firstMatch (colName ("Soundbox Hardware", "sb_hardware") "sessions") =
      some "Soundbox Hardware" ∧
    firstMatch (colName ("Soundbox Hardware", "sb_hardware") "sessions") =
      reverseLookup "sb_hardware" ∧
    strStartsWith (colName ("Soundbox Hardware", "sb_hardware") "sessions")
      "edc_hardware" = false := by
  have h := C8_lookup ("Soundbox Hardware", "sb_hardware") (by decide)
    "sessions" (by decide)
  exact ⟨h.1, h.2.1, h.2.2 ("EDC Hardware", "edc_hardware") (by decide) (by decide)⟩

/-- C9: the dashboard script never mutates the loaded table: after running
every aggregation and both reshape pipelines, the `df` binding (and its
alias `filtered_df`) still holds the exact input table, and the melted
sequences were computed from that unchanged table. -/
theorem C9_no_mutation (df0 : Table) (sel : List (String × String)) :
    (runDashboard df0 sel).df = df0 ∧
    (runDashboard df0 sel).filtered_df = df0 ∧
    (runDashboard df0 sel).sessions_melted = reshape df0 sel "sessions" ∧
    (runDashboard df0 sel).messages_melted = reshape df0 sel "messages" :=
  ⟨rfl, rfl, rfl, rfl⟩

/-- C10: when every cell of the table is non-negative, each real record's
value lies in the interval from the zero-floor value 0 up to the headroom
value `max(real maximum, 0) * 1.05`, which is the value of the last
(headroom) record of reshape's output. -/
theorem C10_bracket (t : Table) (sel : List (String × String)) (kind : String)
    (real : List LongRecord) (m : ℚ) (rec : LongRecord)
    (hsel : sel ≠ [])
    (hnn : ∀ row ∈ t.rows, ∀ p ∈ row.cells, 0 ≤ p.2)
    (hreal : realRecords t sel kind = some real)
    (hmax : seriesMax (real.map LongRecord.value) = some m)
    (hrec : rec ∈ real) :
    0 ≤ rec.value ∧
    rec.value ≤ max m 0 * (21 / 20) ∧
    ((reshape t sel kind).bind List.getLast?).map LongRecord.value =
      some (max m 0 * (21 / 20)) := by
  have h0 : 0 ≤ rec.value := realRecords_value_nonneg hnn hreal rec hrec
  have h1 : rec.value ≤ m :=
    le_of_seriesMax hmax (List.mem_map.mpr ⟨rec, hrec, rfl⟩)
  have h2 : m ≤ max m 0 := le_max_left m 0
  have h3 : max m 0 ≤ max m 0 * (21 / 20) :=
    le_mul_of_one_le_right (le_max_right m 0) (by norm_num)
  exact ⟨h0, h1.trans (h2.trans h3), reshape_getLast_value hsel hreal hmax⟩

/-- C10 witness: on the positive table, the record with value 10 satisfies
0 ≤ 10 ≤ 21, and the headroom record of the output carries 21. -/
theorem C10_bracket_witness :
    0 ≤ (⟨0, "Soundbox Hardware", (10 : ℚ)⟩ : LongRecord).value ∧
    (⟨0, "Soundbox Hardware", (10 : ℚ)⟩ : LongRecord).value ≤
      max 20 0 * (21 / 20) ∧
    ((reshape tableB2 selB "sessions").bind List.getLast?).map LongRecord.value =
      some (max 20 0 * (21 / 20)) :=
  C10_bracket tableB2 selB "sessions" realB2 20 ⟨0, "Soundbox Hardware", 10⟩
    (by decide) (by decide) (by with_unfolding_all decide)
    (by with_unfolding_all decide) (by decide)
